import Mathlib

/-!
Verification development for the go-slim/proc process-lifecycle library.

The Go source is shallowly embedded: the package-level mutable state of
signal.go (the id counter, the listener table, the OS-registration mask)
becomes an explicit state record threaded through the operations; uint32
arithmetic is Nat arithmetic taken mod 2^32; Go function values are
modelled symbolically (a callback is a numeric tag, a nil function value
is none); fallible results are Option values.
-/

namespace Proc

/-- Width of the uint32 machine integers used by the counter and the mask. -/
def U32 : Nat := 2 ^ 32

/-- numSig from signal.go: the maximum number of signals supported across
all systems (65, matching go/src/os/signal/signal.go). -/
def numSig : Nat := 65

/-- An os.Signal value: either a syscall.Signal carrying its numeric value
(an int), or a value of some other dynamic type implementing the interface. -/
inductive OsSignal where
  | syscallSignal (n : Int)
  | other
  deriving DecidableEq, Repr

/-- signum from signal.go: converts an os.Signal to its numeric
representation, returning -1 if the signal is not a syscall.Signal or its
value lies outside 0 .. numSig-1. -/
def signum : OsSignal → Int
  | .syscallSignal i => if i < 0 ∨ (numSig : Int) ≤ i then -1 else i
  | .other => -1

/-- The function value stored in a listener after wrap: the underlying
user callback (none when the user passed a nil function) together with
whether a sync.Once guards it. -/
structure WrappedFn where
  cb : Option Nat
  hasOnce : Bool
  deriving DecidableEq, Repr

/-- wrap from signal.go: with once = false the user function is returned
unchanged (so a nil function stays nil); with once = true a fresh non-nil
closure guarding fn behind a sync.Once is returned. -/
def wrap (fn : Option Nat) (once : Bool) : Option WrappedFn :=
  if once then some ⟨fn, true⟩
  else fn.map (fun c => ⟨some c, false⟩)

/-- listener from signal.go. -/
structure Listener where
  id : Nat
  fn : Option WrappedFn
  sig : Int
  once : Bool
  deriving DecidableEq, Repr

/-- The package-level mutable state of signal.go: the atomic id counter
seq, the listener table lns, the uint32 OS-registration bitmask, and the
trace of signal numbers passed to signal.Notify by add (the OS
registrations performed on behalf of listeners). -/
structure SigState where
  seq : Nat
  lns : List Listener
  mask : Nat
  osRegistered : List Int
  deriving DecidableEq, Repr

/-- The state at process start: counter 0, empty table, empty mask. -/
def s0 : SigState := ⟨0, [], 0, []⟩

/-- add from signal.go: on a valid signal, consult bit n AND 31 of the
uint32 mask, and when clear set it and register the signal with the OS;
then allocate id := (seq+1) mod 2^32, append the wrapped listener, and
return the id. On an invalid signal return 0 and leave the state alone. -/
def add (s : SigState) (sg : OsSignal) (fn : Option Nat) (once : Bool) :
    SigState × Nat :=
  let n := signum sg
  if n > -1 then
    let k := n.toNat % 32
    let s1 :=
      if (s.mask >>> k) &&& 1 == 0 then
        { s with mask := s.mask ||| (1 <<< k),
                 osRegistered := s.osRegistered ++ [n] }
      else s
    let id := (s1.seq + 1) % U32
    (⟨id, s1.lns ++ [⟨id, wrap fn once, n, once⟩], s1.mask, s1.osRegistered⟩,
     id)
  else (s, 0)

/-- On from signal.go. -/
def On (s : SigState) (sg : OsSignal) (fn : Option Nat) : SigState × Nat :=
  add s sg fn false

/-- Once from signal.go. -/
def Once (s : SigState) (sg : OsSignal) (fn : Option Nat) : SigState × Nat :=
  add s sg fn true

example : signum (.syscallSignal 15) = 15 := by decide
example : signum (.syscallSignal 65) = -1 := by decide
example : signum (.syscallSignal (-3)) = -1 := by decide
example :
    ((add s0 (.syscallSignal 2) (some 0) false).1.osRegistered) = [2] := by
  decide

/-- The collection loop of Notify in signal.go, embedded with its explicit
descending index: the first argument of the pair is the accumulator fs of
collected function values, the second the live table; iteration i+1
inspects index i, appends the function value of a matching listener to fs,
and deletes the listener at that index (slices.Delete) when it is a once
listener. Deletion at index i only moves elements above i, all of which
have already been visited, so the loop then continues at index i-1 of the
shrunk table exactly as the Go loop does. -/
def notifyGo (n : Int) :
    Nat → List (Option WrappedFn) × List Listener →
    List (Option WrappedFn) × List Listener
  | 0, st => st
  | i + 1, (fs, lns) =>
    match lns[i]? with
    | some l =>
      if l.sig == n then
        notifyGo n i (fs ++ [l.fn], if l.once then lns.eraseIdx i else lns)
      else
        notifyGo n i (fs, lns)
    | none => notifyGo n i (fs, lns)

/-- The observable outcome of one Notify call: the boolean return value,
the table it leaves behind, and the (non-nil) callbacks it dispatched and
waited for, in collection order. -/
structure NotifyRes where
  ret : Bool
  lns : List Listener
  ran : List WrappedFn
  deriving DecidableEq, Repr

/-- Notify from signal.go: an invalid signal returns false immediately
with no dispatch; otherwise the table is walked once by the descending
loop under the lock, the lock is released, and if no function value was
collected the call returns false, else every collected non-nil function
value is run (concurrently, joined by the WaitGroup before returning)
and the call returns true. -/
def Notify (lns : List Listener) (sg : OsSignal) : NotifyRes :=
  let n := signum sg
  if n == -1 then ⟨false, lns, []⟩
  else
    let p := notifyGo n lns.length ([], lns)
    if p.1.length == 0 then ⟨false, p.2, []⟩
    else ⟨true, p.2, p.1.filterMap id⟩

/-- Cancel from signal.go: count down the length by one for every zero id
and return immediately when nothing remains; otherwise delete every
listener whose id occurs in ids (slices.DeleteFunc keeps exactly the
elements that do not satisfy the predicate, preserving their order). -/
def Cancel (lns : List Listener) (ids : List Nat) : List Listener :=
  let n := ids.foldl (fun acc id => if id == 0 then acc - 1 else acc)
    ids.length
  if n == 0 then lns
  else lns.filter (fun l => !(ids.contains l.id))

example :
    Notify [⟨1, some ⟨some 7, false⟩, 10, false⟩] (.syscallSignal 10) =
      ⟨true, [⟨1, some ⟨some 7, false⟩, 10, false⟩], [⟨some 7, false⟩]⟩ := by
  decide

example :
    Notify [⟨1, some ⟨some 7, true⟩, 10, true⟩] (.syscallSignal 10) =
      ⟨true, [], [⟨some 7, true⟩]⟩ := by
  decide

example :
    Cancel [⟨1, none, 10, false⟩, ⟨2, none, 10, false⟩] [0, 2] =
      [⟨1, none, 10, false⟩] := by
  decide

example :
    Cancel [⟨1, none, 10, false⟩] [0, 0] = [⟨1, none, 10, false⟩] := by
  decide

/-! ### The sync.Once guard produced by wrap

Calling the closure returned by wrap for a once listener runs so.Do(fn):
the underlying callback runs exactly when the guard was still unset, and
the guard is set afterwards. A closure produced for a non-once listener
is the callback itself and runs it on every invocation. The guard state
is a Bool (false = the sync.Once has not fired). -/

/-- One invocation of a wrapped function value: returns the new guard
state and whether the underlying callback ran during this invocation. -/
def invokeWrapped (w : WrappedFn) (done : Bool) : Bool × Bool :=
  if w.hasOnce then
    if done then (true, false) else (true, true)
  else (done, true)

/-- The per-invocation record of k successive invocations of a wrapped
function value starting from guard state done: entry i is true exactly
when the underlying callback ran during invocation i. -/
def runSeq (w : WrappedFn) (done : Bool) : Nat → List Bool
  | 0 => []
  | k + 1 =>
    let p := invokeWrapped w done
    p.2 :: runSeq w p.1 k

/-- Number of executions of the underlying callback over k invocations of
an optional function value (a nil function value is never invoked). -/
def runCount (w : Option WrappedFn) (done : Bool) (k : Nat) : Nat :=
  match w with
  | none => 0
  | some w => (runSeq w done k).count true

/-! ### shutdown.go -/

/-- The numeric value of syscall.SIGTERM. -/
def SIGTERM : Int := 15

/-- The numeric value of syscall.SIGINT. -/
def SIGINT : Int := 2

/-- An observable step of Shutdown, in program order: a synchronous
Notify call (which returns only after all dispatched listeners have
completed), a Notify started on its own goroutine, a sleep, or the call
of the termination function killFn with its signal argument. -/
inductive SEvent where
  | notifySync (target : Int)
  | notifyAsync (target : Int)
  | sleep (d : Nat)
  | kill (sg : Int)
  deriving DecidableEq, Repr

/-- Shutdown from shutdown.go, with the package state made explicit:
delay is delayTimeBeforeForceQuit, lns the listener table, killErr the
(stubbed) killFn. With delay 0 it calls Notify(syscall.SIGTERM)
synchronously and then returns killFn(sig); with delay > 0 the Notify
runs on a goroutine (its table effect is concurrent and not sequenced
here), Shutdown sleeps for the delay and then returns killFn(sig).
Returned: the event trace, the table after the synchronous path, and
the value returned to the caller. -/
def Shutdown (delay : Nat) (lns : List Listener) (sg : Int)
    (killErr : Int → Option Nat) :
    List SEvent × List Listener × Option Nat :=
  if delay > 0 then
    ([.notifyAsync SIGTERM, .sleep delay, .kill sg], lns, killErr sg)
  else
    ([.notifySync SIGTERM, .kill sg],
     (Notify lns (.syscallSignal SIGTERM)).lns, killErr sg)

/-- The signal a trace event passes to Notify, if it is a notify event. -/
def notifyTargetOf : SEvent → Option Int
  | .notifySync t => some t
  | .notifyAsync t => some t
  | _ => none

/-- The signal a trace event passes to killFn, if it is the kill step. -/
def killTargetOf : SEvent → Option Int
  | .kill t => some t
  | _ => none

example :
    Shutdown 0 [] SIGINT (fun _ => none) =
      ([.notifySync SIGTERM, .kill SIGINT], [], none) := by
  decide

/-! ### exec.go

The io.Reader / io.Writer values a caller may place in ExecOptions are
modelled symbolically by numeric tags (none = the nil interface value).
The child process and the context are modelled by their observable
outcomes: whether Start failed, whether the governing context was done
when Wait returned and with which context error, and the exit status
reported by Wait. -/

/-- A writer wired into the child: one of the parent process streams
os.Stdout / os.Stderr, or a caller-supplied writer (by tag). -/
inductive OutW where
  | osStdout
  | osStderr
  | writer (tag : Nat)
  deriving DecidableEq, Repr

/-- ExecOptions from exec.go. OnStart is kept as presence only. -/
structure ExecOptions where
  WorkDir : String
  Timeout : Nat
  Env : List String
  Stdin : Option Nat
  Stdout : Option Nat
  Stderr : Option Nat
  Command : String
  Args : List String
  TTK : Nat
  hasOnStart : Bool
  deriving DecidableEq, Repr

/-- The fields of the exec.Cmd value as configured by Exec just before
Start: working directory, merged environment, WaitDelay, the Setpgid
process attribute, the wired streams, and whether a timeout context
was derived. A nil Stdin is none (the child then reads from the null
device per the os/exec contract). -/
structure Cmd where
  Dir : String
  Env : List String
  WaitDelay : Nat
  Setpgid : Bool
  Stdin : Option Nat
  Stdout : OutW
  Stderr : OutW
  hasTimeoutCtx : Bool
  deriving DecidableEq, Repr

/-- The configuration phase of Exec from exec.go (everything before
cmd.Start): default the working directory to the process working
directory, derive a timeout context when Timeout > 0, build the command
with cmp.Or of the directories, append the extra environment to the
process environment, set WaitDelay when TTK > 0, set Setpgid via
SetSysProcAttribute (POSIX), set Stdin only when the option is non-nil,
and set Stdout and Stderr to os.Stdout and os.Stderr. -/
def configureCmd (procEnv : List String) (procWorkdir : String)
    (opts : ExecOptions) : Cmd :=
  let wd := if opts.WorkDir == "" then procWorkdir else opts.WorkDir
  { Dir := if wd == "" then procWorkdir else wd
    Env := procEnv ++ opts.Env
    WaitDelay := if opts.TTK > 0 then opts.TTK else 0
    Setpgid := true
    Stdin := opts.Stdin
    Stdout := OutW.osStdout
    Stderr := OutW.osStderr
    hasTimeoutCtx := opts.Timeout > 0 }

/-- The error of a context whose Done channel is closed. -/
inductive CtxErr where
  | cancelled
  | deadlineExceeded
  deriving DecidableEq, Repr

/-- A failure reported by cmd.Wait: a non-zero exit status, or some other
wait failure. -/
inductive WaitErr where
  | exitError (code : Nat)
  | otherFailure (tag : Nat)
  deriving DecidableEq, Repr

/-- The os/exec contract for cmd.Wait on a child that ran to completion:
exit status 0 reports no error, a non-zero status reports an ExitError
carrying it. -/
def waitResult (exitCode : Nat) : Option WaitErr :=
  if exitCode == 0 then none else some (.exitError exitCode)

/-- The error value Exec returns, tagged by which return wrapped it:
the start-failure wrap, the context-cancellation wrap, the unexpected
wait-error wrap, or the bare wait error returned on the (in Go
unreachable) branch where the context is done but reports no error. -/
inductive ExecErr where
  | startFailure (tag : Nat)
  | ctxCancelled (cause : CtxErr)
  | waitFailure (cause : WaitErr)
  | bare (cause : WaitErr)
  deriving DecidableEq, Repr

/-- The classification Exec performs after cmd.Wait returns: the select
prefers the ctx.Done branch when the context is done, wrapping the
context error when there is one and otherwise returning the wait error
as-is; the default branch wraps a non-nil wait error and yields nil on a
clean exit. -/
def classifyExec (ctxDone : Bool) (ctxErr : Option CtxErr)
    (waitErr : Option WaitErr) : Option ExecErr :=
  if ctxDone then
    match ctxErr with
    | some e => some (.ctxCancelled e)
    | none => waitErr.map .bare
  else
    match waitErr with
    | some e => some (.waitFailure e)
    | none => none

/-- The full result path of Exec from exec.go: a start failure is
wrapped and returned at once (Wait and the classification never run);
otherwise the classification of the wait outcome decides the result. -/
def ExecResult (startErr : Option Nat) (ctxDone : Bool)
    (ctxErr : Option CtxErr) (waitErr : Option WaitErr) : Option ExecErr :=
  match startErr with
  | some e => some (.startFailure e)
  | none => classifyExec ctxDone ctxErr waitErr

example :
    ExecResult none true (some .deadlineExceeded) (waitResult 1) =
      some (.ctxCancelled .deadlineExceeded) := by decide
example : ExecResult none false none (waitResult 0) = none := by decide
example :
    ExecResult none false none (waitResult 3) =
      some (.waitFailure (.exitError 3)) := by decide

/-! ### Traces of Add calls

A process lifetime of registrations is a list of Add requests replayed
against the state, recording the id each call returned. -/

/-- The arguments of one Add call (via On or Once). -/
structure AddReq where
  sg : OsSignal
  fn : Option Nat
  once : Bool
  deriving DecidableEq, Repr

/-- Whether the request maps to a valid numeric slot, so that add takes
its success branch. -/
def validReq (r : AddReq) : Bool := signum r.sg > -1

/-- Replay a list of Add calls from a state; returns the final state and
the ids handed back to the callers, in call order. -/
def runAdds (s : SigState) : List AddReq → SigState × List Nat
  | [] => (s, [])
  | r :: rs =>
    let p := add s r.sg r.fn r.once
    let q := runAdds p.1 rs
    (q.1, p.2 :: q.2)

/-- Closed form of the ids a replay returns, driven by the running value
c of the uint32 counter: a valid request returns (c+1) mod 2^32 and
advances the counter, an invalid one returns 0 and leaves it. -/
def expectedIds (c : Nat) : List AddReq → List Nat
  | [] => []
  | r :: rs =>
    if signum r.sg > -1 then ((c + 1) % U32) :: expectedIds ((c + 1) % U32) rs
    else 0 :: expectedIds c rs

/-- Closed form of the counter value after a replay. -/
def seqAfter (c : Nat) : List AddReq → Nat
  | [] => c
  | r :: rs =>
    if signum r.sg > -1 then seqAfter ((c + 1) % U32) rs else seqAfter c rs

example :
    (runAdds s0 [⟨.syscallSignal 10, some 0, false⟩, ⟨.other, none, false⟩,
      ⟨.syscallSignal 12, some 1, true⟩]).2 = [1, 0, 2] := by decide

/-! ## Helper lemmas -/

/-- Looking up the position right after a prefix lands on the element
appended there. -/
theorem getElem?_length_append (xs zs : List Listener) (y : Listener) :
    (xs ++ y :: zs)[xs.length]? = some y := by
  rw [List.getElem?_append_right (Nat.le_refl _)]
  simp

/-- slices.Delete at the position right after a prefix removes exactly
the element appended there. -/
theorem eraseIdx_length_append (xs zs : List Listener) (y : Listener) :
    (xs ++ y :: zs).eraseIdx xs.length = xs ++ zs := by
  induction xs with
  | nil => rfl
  | cons a xs ih => simpa [List.eraseIdx] using ih

/-- Characterization of the descending collection loop of Notify: run
over the prefix xs of the table (with an arbitrary untouched suffix zs
and accumulator fs), it appends to fs the function values of the
matching listeners of xs in reverse order, and keeps in the table, in
their original order, exactly the listeners of xs that do not match or
match but are not once. -/
theorem notifyGo_spec (n : Int) (xs : List Listener) :
    ∀ (zs : List Listener) (fs : List (Option WrappedFn)),
    notifyGo n xs.length (fs, xs ++ zs) =
      (fs ++ (xs.reverse.filter (fun l => l.sig == n)).map Listener.fn,
       xs.filter (fun l => !(l.sig == n && l.once)) ++ zs) := by
  induction xs using List.reverseRecOn with
  | nil => intro zs fs; simp [notifyGo]
  | append_singleton ys y ih =>
    intro zs fs
    have hlen : (ys ++ [y]).length = ys.length + 1 := by simp
    have hget : ((ys ++ [y]) ++ zs)[ys.length]? = some y := by
      rw [List.append_assoc]
      exact getElem?_length_append ys zs y
    rw [hlen]
    unfold notifyGo
    rw [hget]
    dsimp only
    by_cases h1 : y.sig == n
    · rw [if_pos h1]
      by_cases h2 : y.once
      · have herase : ((ys ++ [y]) ++ zs).eraseIdx ys.length = ys ++ zs := by
          rw [List.append_assoc]
          exact eraseIdx_length_append ys zs y
        rw [if_pos h2, herase, ih zs (fs ++ [y.fn])]
        simp [h1, h2, List.filter_append]
      · rw [if_neg h2]
        have hsplit : (ys ++ [y]) ++ zs = ys ++ (y :: zs) := by simp
        rw [hsplit, ih (y :: zs) (fs ++ [y.fn])]
        simp [h1, h2, List.filter_append]
    · rw [if_neg h1]
      have hsplit : (ys ++ [y]) ++ zs = ys ++ (y :: zs) := by simp
      rw [hsplit, ih (y :: zs) fs]
      simp [h1, List.filter_append]

/-- Notify on a signal with no numeric slot: false, untouched table, no
callback run. -/
theorem Notify_invalid (lns : List Listener) (sg : OsSignal)
    (h : signum sg = -1) : Notify lns sg = ⟨false, lns, []⟩ := by
  simp [Notify, h]

/-- Notify on a valid signal, in closed form: the return value is the
non-emptiness of the set of matching listeners, the table loses exactly
the matching once listeners (order preserved), and the non-nil function
values of the matching listeners run in reverse registration order. -/
theorem Notify_valid (lns : List Listener) (sg : OsSignal)
    (h : signum sg ≠ -1) :
    Notify lns sg =
      ⟨!(lns.filter (fun l => l.sig == signum sg)).isEmpty,
       lns.filter (fun l => !(l.sig == signum sg && l.once)),
       ((lns.reverse.filter (fun l => l.sig == signum sg)).map
           Listener.fn).filterMap id⟩ := by
  have hmain := notifyGo_spec (signum sg) lns [] []
  simp only [List.append_nil, List.nil_append] at hmain
  have hne : (signum sg == -1) = false := by simpa using h
  simp only [Notify, hne, Bool.false_eq_true, if_false, hmain]
  by_cases hf : (lns.filter (fun l => l.sig == signum sg)).isEmpty
  · have h0 : lns.filter (fun l => l.sig == signum sg) = [] := by
      simpa [List.isEmpty_iff] using hf
    have h0r : lns.reverse.filter (fun l => l.sig == signum sg) = [] := by
      rw [List.filter_reverse, h0, List.reverse_nil]
    simp [h0r, hf]
  · have h0 : lns.filter (fun l => l.sig == signum sg) ≠ [] := by
      simpa [List.isEmpty_iff] using hf
    have hlen :
        ¬ (((lns.reverse.filter (fun l => l.sig == signum sg)).map
            Listener.fn).length = 0) := by
      simp only [List.length_map, List.filter_reverse, List.length_reverse]
      simpa [List.length_eq_zero] using h0
    simp [hf, hlen]
    obtain ⟨x, hx⟩ := List.exists_mem_of_ne_nil _ h0
    have hx' := List.mem_filter.mp hx
    exact ⟨x, hx'.1, by simpa using hx'.2⟩

/-! ## Claim theorems -/

/-- Claim C7: during a Notify dispatch for a valid signal, the
descending collection loop walks the table exactly once (under the
lock), collecting the matching function values in reverse registration
order, and removes each matching once listener from the table in that
same pass; the callbacks Notify then runs, after the lock is released,
are exactly the non-nil collected values in that order, and the table it
publishes is the one produced by the locked pass. -/
theorem notify_reverse_single_pass (lns : List Listener) (sg : OsSignal)
    (h : signum sg ≠ -1) :
    notifyGo (signum sg) lns.length ([], lns) =
      ((lns.reverse.filter (fun l => l.sig == signum sg)).map Listener.fn,
       lns.filter (fun l => !(l.sig == signum sg && l.once))) ∧
    (Notify lns sg).lns =
      lns.filter (fun l => !(l.sig == signum sg && l.once)) ∧
    (Notify lns sg).ran =
      ((lns.reverse.filter (fun l => l.sig == signum sg)).map
          Listener.fn).filterMap id := by
  have hmain := notifyGo_spec (signum sg) lns [] []
  simp only [List.append_nil, List.nil_append] at hmain
  exact ⟨hmain, by rw [Notify_valid lns sg h], by rw [Notify_valid lns sg h]⟩

/-- Witness for C7 at a concrete table and signal: the later-registered
once listener is collected first and removed; the non-once one stays. -/
theorem notify_reverse_single_pass_witness :
    (Notify [⟨1, some ⟨some 7, false⟩, 10, false⟩,
             ⟨2, some ⟨some 8, true⟩, 10, true⟩]
        (.syscallSignal 10)).lns = [⟨1, some ⟨some 7, false⟩, 10, false⟩] ∧
    (Notify [⟨1, some ⟨some 7, false⟩, 10, false⟩,
             ⟨2, some ⟨some 8, true⟩, 10, true⟩]
        (.syscallSignal 10)).ran = [⟨some 8, true⟩, ⟨some 7, false⟩] := by
  have h := notify_reverse_single_pass
    [⟨1, some ⟨some 7, false⟩, 10, false⟩, ⟨2, some ⟨some 8, true⟩, 10, true⟩]
    (.syscallSignal 10) (by decide)
  refine ⟨?_, ?_⟩
  · rw [h.2.1]; decide
  · rw [h.2.2]; decide

/-- Claim C2: Notify on an invalid signal returns false with no callback
run and the table untouched; on a valid signal the return value is true
exactly when some listener matches; a false return runs no callback;
and on a valid signal the call runs the non-nil callback of every
matching listener (in reverse registration order, waiting for all before
returning), after which every matching non-once listener is still in the
table. -/
theorem notify_dispatch_matching (lns : List Listener) (sg : OsSignal) :
    (signum sg = -1 → Notify lns sg = ⟨false, lns, []⟩) ∧
    ((Notify lns sg).ret = true ↔
      signum sg ≠ -1 ∧ lns.filter (fun l => l.sig == signum sg) ≠ []) ∧
    ((Notify lns sg).ret = false → (Notify lns sg).ran = []) ∧
    (signum sg ≠ -1 →
      (Notify lns sg).ran =
        ((lns.reverse.filter (fun l => l.sig == signum sg)).map
            Listener.fn).filterMap id ∧
      (Notify lns sg).lns =
        lns.filter (fun l => !(l.sig == signum sg && l.once)) ∧
      ∀ l ∈ lns, l.sig = signum sg → l.once = false →
        l ∈ (Notify lns sg).lns) := by
  by_cases h : signum sg = -1
  · have hi := Notify_invalid lns sg h
    refine ⟨fun _ => hi, ?_, ?_, fun hv => absurd h hv⟩
    · rw [hi]; simp [h]
    · intro _; rw [hi]
  · have hv := Notify_valid lns sg h
    refine ⟨fun hh => absurd hh h, ?_, ?_, fun _ => ⟨?_, ?_, ?_⟩⟩
    · rw [hv]
      simp only [NotifyRes.ret, Bool.not_eq_true', List.isEmpty_iff,
        Bool.not_eq_false]
      constructor
      · intro hne
        exact ⟨h, by simpa [List.isEmpty_iff] using hne⟩
      · intro hne
        simpa [List.isEmpty_iff] using hne.2
    · intro hfalse
      rw [hv] at hfalse ⊢
      simp only [NotifyRes.ret, Bool.not_eq_false'] at hfalse
      have h0 : lns.filter (fun l => l.sig == signum sg) = [] := by
        simpa [List.isEmpty_iff] using hfalse
      have h0r : lns.reverse.filter (fun l => l.sig == signum sg) = [] := by
        rw [List.filter_reverse, h0, List.reverse_nil]
      simp [h0r]
    · rw [hv]
    · rw [hv]
    · intro l hl hsig honce
      rw [hv]
      simp only [NotifyRes.lns]
      exact List.mem_filter.mpr ⟨hl, by simp [hsig, honce]⟩

/-- Witness for C2 at a concrete table: a matching listener makes Notify
return true, run the callback, and keep the non-once listener; a
non-matching signal returns false. -/
theorem notify_dispatch_matching_witness :
    (Notify [⟨1, some ⟨some 7, false⟩, 10, false⟩]
        (.syscallSignal 10)).ret = true ∧
    (Notify [⟨1, some ⟨some 7, false⟩, 10, false⟩]
        (.syscallSignal 10)).ran = [⟨some 7, false⟩] ∧
    ⟨1, some ⟨some 7, false⟩, 10, false⟩ ∈
      (Notify [⟨1, some ⟨some 7, false⟩, 10, false⟩]
        (.syscallSignal 10)).lns ∧
    (Notify [⟨1, some ⟨some 7, false⟩, 10, false⟩]
        (.syscallSignal 12)).ret = false := by
  have h1 := notify_dispatch_matching
    [⟨1, some ⟨some 7, false⟩, 10, false⟩] (.syscallSignal 10)
  have h2 := notify_dispatch_matching
    [⟨1, some ⟨some 7, false⟩, 10, false⟩] (.syscallSignal 12)
  refine ⟨?_, ?_, ?_, ?_⟩
  · exact h1.2.1.mpr ⟨by decide, by decide⟩
  · rw [(h1.2.2.2 (by decide)).1]; decide
  · exact (h1.2.2.2 (by decide)).2.2 _ (by decide) (by decide) (by decide)
  · by_contra hc
    have := h2.2.1.mp (by simpa using hc)
    exact absurd this.2 (by decide)

/-- The countdown loop at the head of Cancel computes the starting value
minus the number of zero ids. -/
theorem cancel_count_foldl (ids : List Nat) : ∀ a : Nat,
    ids.foldl (fun acc id => if id == 0 then acc - 1 else acc) a =
      a - ids.countP (· == 0) := by
  induction ids with
  | nil => intro a; simp
  | cons i ids ih =>
    intro a
    rw [List.foldl_cons]
    cases hi : (i == 0)
    · rw [if_neg (by simp [hi]), ih]
      have hcp : List.countP (fun x => x == 0) (i :: ids) =
          List.countP (fun x => x == 0) ids := by
        simp [List.countP_cons, hi]
      rw [hcp]
    · rw [if_pos (by simp [hi]), ih]
      have hcp : List.countP (fun x => x == 0) (i :: ids) =
          List.countP (fun x => x == 0) ids + 1 := by
        simp [List.countP_cons, hi]
      rw [hcp]
      omega

/-- The early return of Cancel fires exactly when every given id is 0. -/
theorem cancel_count_zero_iff (ids : List Nat) :
    ids.foldl (fun acc id => if id == 0 then acc - 1 else acc) ids.length
        = 0 ↔ ∀ id ∈ ids, id = 0 := by
  rw [cancel_count_foldl]
  have hle : ids.countP (· == 0) ≤ ids.length :=
    List.countP_le_length (· == 0)
  constructor
  · intro h id hid
    have hc : ids.countP (· == 0) = ids.length := by omega
    simpa using List.countP_eq_length.mp hc id hid
  · intro h
    have hc : ids.countP (· == 0) = ids.length :=
      List.countP_eq_length.mpr (fun id hid => by simpa using h id hid)
    omega

/-- Claim C8: on a table whose listeners all carry a non-zero id (the
only ids the registry ever stores short of counter wraparound, and the
shape the spec data model prescribes), Cancel removes exactly the
listeners whose id occurs in the given list, keeps every other listener
in its original relative order, and a zero id has no effect at all. -/
theorem cancel_removes_exactly_given_ids (lns : List Listener)
    (ids : List Nat) (h : ∀ l ∈ lns, l.id ≠ 0) :
    Cancel lns ids = lns.filter (fun l => !(ids.contains l.id)) ∧
    Cancel lns (0 :: ids) = Cancel lns ids := by
  have hmain : ∀ js : List Nat,
      Cancel lns js = lns.filter (fun l => !(js.contains l.id)) := by
    intro js
    by_cases hz :
        js.foldl (fun acc id => if id == 0 then acc - 1 else acc)
          js.length = 0
    · have hzb :
          ((js.foldl (fun acc id => if id == 0 then acc - 1 else acc)
            js.length) == 0) = true := by
        simpa using hz
      have hall := (cancel_count_zero_iff js).mp hz
      simp only [Cancel, hzb, if_true]
      refine (List.filter_eq_self.mpr ?_).symm
      intro l hl
      simp only [Bool.not_eq_true', Bool.not_eq_true]
      by_contra hc
      have hmem : l.id ∈ js := by
        have hct : js.contains l.id = true := by
          revert hc; cases js.contains l.id <;> simp
        simpa using hct
      exact absurd (hall l.id hmem) (h l hl)
    · have hzb :
          ((js.foldl (fun acc id => if id == 0 then acc - 1 else acc)
            js.length) == 0) = false := by
        simpa using hz
      simp only [Cancel, hzb, Bool.false_eq_true, if_false]
  refine ⟨hmain ids, ?_⟩
  rw [hmain ids, hmain (0 :: ids)]
  refine List.filter_congr ?_
  intro l hl
  have hne : (l.id == 0) = false := by
    cases hlid : (l.id == 0)
    · rfl
    · exact absurd (by simpa using hlid : l.id = 0) (h l hl)
  have hne2 : ((0 : Nat) == l.id) = false := by
    cases hlid : ((0 : Nat) == l.id)
    · rfl
    · exact absurd (by simpa using hlid : (0 : Nat) = l.id).symm (h l hl)
  show (!((0 :: ids).contains l.id)) = (!(ids.contains l.id))
  have hcc : (0 :: ids).contains l.id = ids.contains l.id := by
    simp only [List.contains_cons, hne, hne2, Bool.false_or]
  rw [hcc]

/-- Witness for C8 at a concrete table: ids 0 and 99 are ignored, id 2
is removed, the other listeners stay in order. -/
theorem cancel_removes_exactly_given_ids_witness :
    Cancel [⟨1, none, 10, false⟩, ⟨2, none, 11, false⟩, ⟨3, none, 12, false⟩]
        [0, 2, 99] =
      [⟨1, none, 10, false⟩, ⟨3, none, 12, false⟩] := by
  have h := cancel_removes_exactly_given_ids
    [⟨1, none, 10, false⟩, ⟨2, none, 11, false⟩, ⟨3, none, 12, false⟩]
    [0, 2, 99] (by decide)
  rw [h.1]
  decide

/-- Once the sync.Once guard has fired, no further invocation runs the
underlying callback. -/
theorem runSeq_once_done (fn : Option Nat) (k : Nat) :
    runSeq ⟨fn, true⟩ true k = List.replicate k false := by
  induction k with
  | zero => rfl
  | succ k ih => simp [runSeq, invokeWrapped, ih, List.replicate_succ]

/-- Claim C5: the closure wrap builds for a once listener is the
sync.Once guard around the underlying callback; across any number k of
invocations of that closure, the underlying callback executes at most
once, and it is exactly the first invocation that runs it (invocations
two onward are no-ops), independently of any table removal. -/
theorem once_wrap_single_execution (fn : Option Nat) (k : Nat) :
    wrap fn true = some ⟨fn, true⟩ ∧
    runCount (wrap fn true) false k ≤ 1 ∧
    runSeq ⟨fn, true⟩ false (k + 1) = true :: List.replicate k false := by
  have hseq : ∀ j : Nat,
      runSeq ⟨fn, true⟩ false (j + 1) = true :: List.replicate j false := by
    intro j
    simp [runSeq, invokeWrapped, runSeq_once_done]
  refine ⟨rfl, ?_, hseq k⟩
  cases k with
  | zero => simp [runCount, wrap, runSeq]
  | succ j =>
    show runCount (some ⟨fn, true⟩) false (j + 1) ≤ 1
    simp [runCount, hseq j, List.count_cons, List.count_replicate]

/-- Claim C4: Shutdown with forceQuitDelay zero runs Notify for the
terminate signal synchronously (its event strictly precedes the kill
event and the table it publishes is the one Notify computed, so all
terminate listeners have completed first), invokes the termination
function exactly once, and returns exactly its error value. -/
theorem shutdown_zero_delay_sync_notify_then_kill (lns : List Listener)
    (sg : Int) (killErr : Int → Option Nat) :
    Shutdown 0 lns sg killErr =
      ([.notifySync SIGTERM, .kill sg],
       (Notify lns (.syscallSignal SIGTERM)).lns, killErr sg) ∧
    ((Shutdown 0 lns sg killErr).1.countP
      (fun e => (killTargetOf e).isSome)) = 1 := by
  constructor
  · simp [Shutdown]
  · simp [Shutdown, killTargetOf, List.countP_cons]

/-- Claim C10: whatever signal Shutdown receives and whatever the delay,
the one Notify it issues targets the terminate signal, never the
received signal, which is forwarded only to the termination function;
in particular Shutdown on interrupt notifies the terminate listeners and
then kills with interrupt. -/
theorem shutdown_notifies_terminate_only (delay : Nat)
    (lns : List Listener) (sg : Int) (killErr : Int → Option Nat) :
    (Shutdown delay lns sg killErr).1.filterMap notifyTargetOf =
      [SIGTERM] ∧
    (Shutdown delay lns sg killErr).1.filterMap killTargetOf = [sg] ∧
    (Shutdown delay lns sg killErr).2.2 = killErr sg ∧
    Shutdown 0 lns SIGINT killErr =
      ([.notifySync SIGTERM, .kill SIGINT],
       (Notify lns (.syscallSignal SIGTERM)).lns, killErr SIGINT) := by
  by_cases h : delay > 0 <;>
    simp [Shutdown, h, notifyTargetOf, killTargetOf, List.filterMap_cons]

/-- Claim C1 is false of the code: the registration mask is a single
uint32 indexed by n AND 31, so the 65 representable signal numbers alias
in pairs. After registering a listener for signal 2 and then one for
signal 34, both listeners are in the table, but only 2 was ever
registered with the OS: the first Add for 34 saw bit 2 already set and
skipped the OS registration, so distinct numbers do interfere. -/
theorem add_mask_collision_drops_os_registration :
    ((add (add s0 (.syscallSignal 2) (some 0) false).1
        (.syscallSignal 34) (some 1) false).1.lns.map Listener.sig
      = [2, 34]) ∧
    ((add (add s0 (.syscallSignal 2) (some 0) false).1
        (.syscallSignal 34) (some 1) false).1.osRegistered = [2]) ∧
    (2 : Int) ≠ 34 := by
  refine ⟨by decide, by decide, by decide⟩

/-- Claim C3 is false of the code: Exec wires the child to the parent
process streams os.Stdout and os.Stderr unconditionally, ignoring the
Stdout and Stderr overrides in the options, while the Stdin override is
honored. -/
theorem exec_stdout_stderr_overrides_ignored :
    (configureCmd ["A=1"] "/w"
        ⟨"", 0, [], some 5, some 7, some 8, "sh", ["-c", "x"], 0, false⟩).Stdout
      = OutW.osStdout ∧
    (configureCmd ["A=1"] "/w"
        ⟨"", 0, [], some 5, some 7, some 8, "sh", ["-c", "x"], 0, false⟩).Stderr
      = OutW.osStderr ∧
    OutW.osStdout ≠ OutW.writer 7 ∧
    OutW.osStderr ≠ OutW.writer 8 ∧
    (configureCmd ["A=1"] "/w"
        ⟨"", 0, [], some 5, some 7, some 8, "sh", ["-c", "x"], 0, false⟩).Stdin
      = some 5 := by
  refine ⟨rfl, rfl, by decide, by decide, rfl⟩

/-- Claim C9: for an Exec whose child started (no start failure), under
the Go context invariant that a done context reports a non-nil error:
if the governing context was cancelled or its deadline exceeded by the
time Wait returned, the result wraps the context cause (and is in
particular not an exit-code error); otherwise a non-zero exit yields an
error wrapping the exit cause and a clean zero exit yields nil. -/
theorem exec_error_cause_selection (ctxDone : Bool) (ctxErr : Option CtxErr)
    (exitCode : Nat) (hctx : ctxDone = true → ctxErr ≠ none) :
    (ctxDone = true → ∃ e, ctxErr = some e ∧
      ExecResult none ctxDone ctxErr (waitResult exitCode) =
        some (.ctxCancelled e)) ∧
    (ctxDone = false → exitCode ≠ 0 →
      ExecResult none ctxDone ctxErr (waitResult exitCode) =
        some (.waitFailure (.exitError exitCode))) ∧
    (ctxDone = false → exitCode = 0 →
      ExecResult none ctxDone ctxErr (waitResult exitCode) = none) := by
  refine ⟨?_, ?_, ?_⟩
  · intro hd
    cases ctxErr with
    | none => exact absurd rfl (hctx hd)
    | some e =>
      exact ⟨e, rfl, by simp [ExecResult, classifyExec, hd]⟩
  · intro hd hnz
    have hw : (exitCode == 0) = false := by simpa using hnz
    simp [ExecResult, classifyExec, hd, waitResult, hw]
  · intro hd hz
    simp [ExecResult, classifyExec, hd, waitResult, hz]

/-- Witness for C9: a timed-out run with exit code 1 reports the
deadline cause, not an exit-code error; without cancellation, exit 3
errs and exit 0 does not. -/
theorem exec_error_cause_selection_witness :
    ExecResult none true (some .deadlineExceeded) (waitResult 1) =
      some (.ctxCancelled .deadlineExceeded) ∧
    ExecResult none false none (waitResult 3) =
      some (.waitFailure (.exitError 3)) ∧
    ExecResult none false none (waitResult 0) = none := by
  have h1 := exec_error_cause_selection true (some .deadlineExceeded) 1
    (fun _ => by decide)
  have h2 := exec_error_cause_selection false none 3 (fun hc => by cases hc)
  have h3 := exec_error_cause_selection false none 0 (fun hc => by cases hc)
  refine ⟨?_, h2.2.1 rfl (by decide), h3.2.2 rfl rfl⟩
  obtain ⟨e, he, hr⟩ := h1.1 rfl
  cases he
  exact hr

/-- signum returns -1 or a value in the numeric range. -/
theorem signum_cases (sg : OsSignal) : signum sg = -1 ∨ 0 ≤ signum sg := by
  cases sg with
  | syscallSignal i =>
    simp only [signum]
    by_cases h : i < 0 ∨ (numSig : Int) ≤ i
    · left; rw [if_pos h]
    · right
      rw [if_neg h]
      push_neg at h
      exact h.1
  | other => left; rfl

/-- add on an unmappable signal is a no-op returning the 0 sentinel. -/
theorem add_invalid (s : SigState) (sg : OsSignal) (fn : Option Nat)
    (once : Bool) (h : ¬ signum sg > -1) : add s sg fn once = (s, 0) := by
  simp [add, h]

/-- add on a mappable signal returns (seq+1) mod 2^32 and stores it as
the new counter value, whatever the mask branch did. -/
theorem add_valid_seq (s : SigState) (sg : OsSignal) (fn : Option Nat)
    (once : Bool) (h : signum sg > -1) :
    (add s sg fn once).2 = (s.seq + 1) % U32 ∧
    (add s sg fn once).1.seq = (s.seq + 1) % U32 := by
  unfold add
  rw [if_pos h]
  constructor <;>
  · dsimp only
    split <;> rfl

/-- A replay of Add calls returns exactly the ids of the closed form
driven by the running counter, and leaves the counter at the closed
form value. -/
theorem runAdds_spec (rs : List AddReq) : ∀ s : SigState,
    (runAdds s rs).2 = expectedIds s.seq rs ∧
    (runAdds s rs).1.seq = seqAfter s.seq rs := by
  induction rs with
  | nil => intro s; exact ⟨rfl, rfl⟩
  | cons r rs ih =>
    intro s
    by_cases h : signum r.sg > -1
    · have hv := add_valid_seq s r.sg r.fn r.once h
      have hrec := ih (add s r.sg r.fn r.once).1
      simp only [runAdds, expectedIds, seqAfter, h, if_true]
      constructor
      · rw [hv.1, hrec.1, hv.2]
      · rw [hrec.2, hv.2]
    · have hi := add_invalid s r.sg r.fn r.once h
      simp only [runAdds, expectedIds, seqAfter, h, if_false]
      constructor
      · rw [hi]
        exact congrArg (0 :: ·) (ih s).1
      · rw [hi]
        exact (ih s).2

/-- As long as the counter does not wrap, the non-zero ids a replay
returns are the consecutive integers starting right after the initial
counter value. -/
theorem expectedIds_filter_nowrap (rs : List AddReq) : ∀ c : Nat,
    c + rs.countP validReq < U32 →
    (expectedIds c rs).filter (· != 0) =
      List.range' (c + 1) (rs.countP validReq) := by
  induction rs with
  | nil => intro c _; simp [expectedIds]
  | cons r rs ih =>
    intro c h
    by_cases hv : signum r.sg > -1
    · have hcount : (r :: rs).countP validReq = rs.countP validReq + 1 := by
        simp [List.countP_cons, validReq, hv]
      rw [hcount] at h ⊢
      have hmod : (c + 1) % U32 = c + 1 := Nat.mod_eq_of_lt (by omega)
      simp only [expectedIds, hv, if_true, hmod, List.filter_cons]
      have hne : ((c + 1 : Nat) != 0) = true := by simp
      rw [hne]
      simp only [if_true]
      rw [ih (c + 1) (by omega), List.range'_succ]
    · have hcount : (r :: rs).countP validReq = rs.countP validReq := by
        simp [List.countP_cons, validReq, hv]
      rw [hcount] at h ⊢
      simp only [expectedIds, hv, if_false, List.filter_cons]
      have hz : ((0 : Nat) != 0) = false := by simp
      rw [hz]
      simp only [Bool.false_eq_true, if_false]
      exact ih c h

/-- As long as the counter does not wrap, a replay returns the 0
sentinel exactly for the requests whose signal has no numeric slot. -/
theorem expectedIds_zero_iff (rs : List AddReq) : ∀ c : Nat,
    c + rs.countP validReq < U32 →
    List.Forall₂ (fun id r => id = 0 ↔ signum r.sg = -1)
      (expectedIds c rs) rs := by
  induction rs with
  | nil => intro c _; simp [expectedIds]
  | cons r rs ih =>
    intro c h
    by_cases hv : signum r.sg > -1
    · have hcount : (r :: rs).countP validReq = rs.countP validReq + 1 := by
        simp [List.countP_cons, validReq, hv]
      rw [hcount] at h
      have hmod : (c + 1) % U32 = c + 1 := Nat.mod_eq_of_lt (by omega)
      simp only [expectedIds, hv, if_true, hmod]
      refine List.Forall₂.cons ?_ (ih (c + 1) (by omega))
      constructor
      · intro hc; omega
      · intro hs; omega
    · have hcount : (r :: rs).countP validReq = rs.countP validReq := by
        simp [List.countP_cons, validReq, hv]
      rw [hcount] at h
      have hs : signum r.sg = -1 := by
        rcases signum_cases r.sg with hh | hh
        · exact hh
        · omega
      simp only [expectedIds, hv, if_false]
      exact List.Forall₂.cons (by simp [hs]) (ih c h)

/-- Claim C6, amended for counter wraparound: over any sequence of Add
calls in which fewer than 2^32 succeed, the non-zero returned ids are
pairwise distinct, and a call returns the 0 sentinel exactly when its
signal cannot be mapped to a numeric slot. -/
theorem add_ids_distinct_before_wrap (rs : List AddReq)
    (h : rs.countP validReq < U32) :
    ((runAdds s0 rs).2.filter (· != 0)).Nodup ∧
    List.Forall₂ (fun id r => id = 0 ↔ signum r.sg = -1)
      (runAdds s0 rs).2 rs := by
  have hids := (runAdds_spec rs s0).1
  have hs0 : s0.seq = 0 := rfl
  rw [hids, hs0]
  constructor
  · rw [expectedIds_filter_nowrap rs 0 (by omega)]
    exact List.nodup_range' _ _ 1 (by norm_num)
  · exact expectedIds_zero_iff rs 0 (by omega)

/-- Witness for the amended C6: a mixed replay of two valid Adds and an
invalid one returns ids 1, 0, 2: distinct non-zero ids for the valid
calls and the sentinel for the invalid one. -/
theorem add_ids_distinct_before_wrap_witness :
    (runAdds s0 [⟨.syscallSignal 10, some 0, false⟩, ⟨.other, none, false⟩,
      ⟨.syscallSignal 12, some 1, true⟩]).2 = [1, 0, 2] ∧
    ([1, 0, 2].filter (· != (0 : Nat))).Nodup := by
  have h := add_ids_distinct_before_wrap
    [⟨.syscallSignal 10, some 0, false⟩, ⟨.other, none, false⟩,
      ⟨.syscallSignal 12, some 1, true⟩] (by decide)
  have hval : (runAdds s0 [⟨.syscallSignal 10, some 0, false⟩,
      ⟨.other, none, false⟩, ⟨.syscallSignal 12, some 1, true⟩]).2
      = [1, 0, 2] := by decide
  refine ⟨hval, ?_⟩
  have := h.1
  rw [hval] at this
  exact this

/-- Replaying only valid requests without reaching the wrap point moves
the counter forward by one per request. -/
theorem seqAfter_replicate (k : Nat) : ∀ c : Nat, c + k < U32 →
    seqAfter c (List.replicate k ⟨.syscallSignal 10, some 0, false⟩) =
      c + k := by
  induction k with
  | zero => intro c _; simp [seqAfter]
  | succ k ih =>
    intro c h
    rw [List.replicate_succ]
    have hv : signum (OsSignal.syscallSignal 10) > -1 := by decide
    simp only [seqAfter, hv, if_true]
    have hmod : (c + 1) % U32 = c + 1 := Nat.mod_eq_of_lt (by omega)
    rw [hmod, ih (c + 1) (by omega)]
    omega

/-- Counterexample to C6 as stated: at the 2^32-th successful Add the
uint32 counter wraps, so an Add with a perfectly valid signal returns
the 0 sentinel (and from there on ids repeat), violating both the
non-zero-id and the 0-exactly-on-invalid conjuncts. -/
theorem add_id_wraps_to_zero :
    signum (.syscallSignal 10) > -1 ∧
    (add ((runAdds s0 (List.replicate (U32 - 1)
          ⟨.syscallSignal 10, some 0, false⟩)).1)
        (.syscallSignal 10) (some 0) false).2 = 0 := by
  refine ⟨by decide, ?_⟩
  have hseq : ((runAdds s0 (List.replicate (U32 - 1)
      ⟨.syscallSignal 10, some 0, false⟩)).1).seq = U32 - 1 := by
    rw [(runAdds_spec _ s0).2]
    have hs0 : s0.seq = 0 := rfl
    rw [hs0]
    have := seqAfter_replicate (U32 - 1) 0 (by norm_num [U32])
    simpa using this
  rw [(add_valid_seq _ _ _ _ (by decide)).1, hseq]
  have hone : (1 : Nat) ≤ U32 := by norm_num [U32]
  have hsum : U32 - 1 + 1 = U32 := by omega
  rw [hsum]
  exact Nat.mod_self U32

end Proc
